import Mathlib

/-!
Verification development for the pyleecan Bayesian-optimization tutorial
(`Tutorials/tuto_Optimization_Bayes_machine_SCIM.ipynb`) and the
surrogate-assisted optimization engine it drives, as described in the
repository specification.

The tutorial's problem definition (reference simulation, `evaluate_fct`,
design variables with `gen_setter`, objectives and the `const1` constraint)
is embedded directly from the notebook source.  The solver internals
(`OptiBayesAlgSmoot.solve`, the surrogate model and the acquisition
strategy) are not part of the analysed sources, so they are modelled from
the specification; such definitions carry a doc comment starting with
`Modelled from the spec:`.
-/

/-! ## Data model of the tutorial's reference simulation

The notebook builds `simu_ref = Simu1(name="Tuto_Opti_Bayes", machine=None)`
with `simu_ref.input = InputCurrent(Ir=np.zeros(30))` and all physics
models (`elec`, `mag`, `force`, `struct`) set to `None`. -/

/-- An imported value matrix; `Ir` has a `.value` array of 30 entries. -/
structure ImportMatrixVal where
  value : Fin 30 → ℝ

/-- The simulation input.  Besides `Ir` (the design-variable slot used by the
tutorial) we keep further slots (`Is`, `angle_rotor_initial`) so that
frame conditions about the setters are meaningful. -/
structure InputCurrent where
  Ir : ImportMatrixVal
  Is : Option ImportMatrixVal
  angle_rotor_initial : ℝ

/-- The reference simulation object of the tutorial. -/
structure Simu1 where
  name : String
  machine : Option Unit
  input : InputCurrent
  elec : Option Unit
  mag : Option Unit
  force : Option Unit
  struc : Option Unit

/-- The magnetic output slots used by the tutorial: `evaluate_fct` writes
`Tem_av` and `Tem_rip_norm`; the constraint reads `Tem_rip_pp`. -/
structure OutMag where
  Tem_av : ℝ
  Tem_rip_norm : ℝ
  Tem_rip_pp : ℝ

/-- The output object handed to `evaluate_fct` and to objective/constraint
extraction functions: it exposes the simulation (`output.simu`) and the
magnetic results (`output.mag`). -/
structure Output where
  simu : Simu1
  mag : OutMag

/-- `simu_ref` from the notebook: named simulation, no machine, `Ir`
initialized to `np.zeros(30)`, no physics models. -/
def simu_ref : Simu1 :=
  { name := "Tuto_Opti_Bayes"
    machine := none
    input := { Ir := { value := fun _ => 0 }, Is := none, angle_rotor_initial := 0 }
    elec := none
    mag := none
    force := none
    struc := none }

/-! ## The tutorial's evaluation function (Zitzler–Deb–Thiele N.3)

```python
def evaluate_fct(output):
    x = output.simu.input.Ir.value
    f1 = lambda x: x[0]
    g = lambda x: 1 + (9 / 29) * np.sum(x[1:])
    h = lambda f1, g: 1 - np.sqrt(f1 / g) - (f1 / g) * np.sin(10 * np.pi * f1)
    output.mag.Tem_av = f1(x)
    output.mag.Tem_rip_norm = g(x) * h(f1(x), g(x))
``` -/

/-- `f1(x) = x[0]`. -/
noncomputable def f1 (x : Fin 30 → ℝ) : ℝ := x 0

/-- `g(x) = 1 + (9/29) * np.sum(x[1:])`. -/
noncomputable def g (x : Fin 30 → ℝ) : ℝ :=
  1 + (9 / 29) * ∑ i in Finset.univ.erase (0 : Fin 30), x i

/-- `h(f1, g) = 1 - sqrt(f1/g) - (f1/g) * sin(10*pi*f1)`. -/
noncomputable def h (f1v gv : ℝ) : ℝ :=
  1 - Real.sqrt (f1v / gv) - (f1v / gv) * Real.sin (10 * Real.pi * f1v)

/-- `evaluate_fct`: reads `output.simu.input.Ir.value` and writes
`output.mag.Tem_av` and `output.mag.Tem_rip_norm` (and nothing else). -/
noncomputable def evaluate_fct (output : Output) : Output :=
  let x := output.simu.input.Ir.value
  { output with
    mag := { output.mag with
      Tem_av := f1 x
      Tem_rip_norm := g x * h (f1 x) (g x) } }

/-! ## Design variables: `gen_setter`

```python
def gen_setter(i):
    def new_setter(simu, value):
        simu.input.Ir.value[i] = value
    return new_setter
``` -/

/-- `gen_setter(i)` returns the setter writing `value` into
`simu.input.Ir.value[i]`. -/
def gen_setter (i : Fin 30) : Simu1 → ℝ → Simu1 :=
  fun simu value =>
    { simu with
      input := { simu.input with
        Ir := { value := Function.update simu.input.Ir.value i value } } }

/-! ## Constraint `const1`

```python
OptiConstraint(name="const1", type_const="<=", value=700,
               get_variable="lambda output: abs(output.mag.Tem_rip_pp)")
``` -/

/-- Extraction function of `const1`: `lambda output: abs(output.mag.Tem_rip_pp)`. -/
noncomputable def const1_get_variable (output : Output) : ℝ := |output.mag.Tem_rip_pp|

/-- Threshold of `const1`. -/
def const1_value : ℝ := 700

/-- Feasibility of an output under `const1` (`type_const = "<="`). -/
noncomputable def const1_satisfied (output : Output) : Prop :=
  const1_get_variable output ≤ const1_value

/-! ## Variable space and sampling

The notebook declares 30 design variables, all of kind `interval` with
`space=[0, 1]` and `get_value=lambda space: np.random.uniform(*space)`.
The numpy global random generator is modelled as an explicitly threaded
state: a 64-bit linear congruential generator whose draws are rationals in
`[0, 1)`. -/

/-- Modelled from the spec: the pseudo-random generator state transition
(numpy's global generator, made explicit so that runs are functions of the
`random_seed`). -/
def lcgNext (s : Nat) : Nat :=
  (6364136223846793005 * s + 1442695040888963407) % 18446744073709551616

/-- A draw in `[0, 1)` from generator state `s` (53-bit mantissa). -/
def rand01 (s : Nat) : ℚ :=
  ((s % 9007199254740992 : Nat) : ℚ) / 9007199254740992

/-- Modelled from numpy's documented semantics: `np.random.uniform(lo, hi)`
returns `lo + (hi - lo) * u` with `u` drawn uniformly in `[0, 1)`. -/
def npUniform (lo hi : ℚ) (s : Nat) : ℚ := lo + (hi - lo) * rand01 s

/-- Kind of a design variable: continuous interval or discrete set. -/
inductive TypeVar
  | interval
  | discrete
deriving DecidableEq

/-- An `OptiDesignVar` as configured in the notebook: name, unique symbol,
kind, and the `space` bounds (the notebook's `space=[0, 1]` lists are
`(lo, hi)` pairs here). -/
structure OptiDesignVar where
  name : String
  symbol : String
  type_var : TypeVar
  space : ℚ × ℚ

/-- The notebook's initial-sampling rule, shared by all 30 variables:
`get_value=lambda space: np.random.uniform(*space)`. -/
def get_value (dv : OptiDesignVar) (s : Nat) : ℚ :=
  npUniform dv.space.1 dv.space.2 s

/-- The notebook's design variables: `Ir(i)`, symbol `var_i`, kind
`interval`, space `[0, 1]`, for `i = 0 .. 29`. -/
def my_vars : List OptiDesignVar :=
  (List.range 30).map fun i =>
    { name := "Ir(" ++ toString i ++ ")"
      symbol := "var_" ++ toString i
      type_var := TypeVar.interval
      space := (0, 1) }

/-- Sample one design point: each variable draws via its `get_value` rule,
threading the generator state. -/
def samplePoint : List OptiDesignVar → Nat → List ℚ × Nat
  | [], s => ([], s)
  | dv :: rest, s =>
      let v := get_value dv s
      let (vs, s2) := samplePoint rest (lcgNext s)
      (v :: vs, s2)

/-- Modelled from the spec: `sample_initial(n)` produces `n` design points by
independently sampling each variable descriptor via its initial-sampling
rule.  The same routine generates the per-iteration candidate pools. -/
def sampleBatch (vars : List OptiDesignVar) : Nat → Nat → List (List ℚ) × Nat
  | 0, s => ([], s)
  | n + 1, s =>
      let (p, s2) := samplePoint vars s
      let (ps, s3) := sampleBatch vars n s2
      (p :: ps, s3)

lemma rand01_nonneg (s : Nat) : 0 ≤ rand01 s := by
  unfold rand01
  positivity

lemma rand01_lt_one (s : Nat) : rand01 s < 1 := by
  unfold rand01
  rw [div_lt_one (by norm_num)]
  exact_mod_cast Nat.mod_lt s (by norm_num)

lemma npUniform_mem (lo hi : ℚ) (hlohi : lo ≤ hi) (s : Nat) :
    lo ≤ npUniform lo hi s ∧ npUniform lo hi s ≤ hi := by
  have h0 := rand01_nonneg s
  have h1 := (rand01_lt_one s).le
  unfold npUniform
  constructor
  · nlinarith
  · nlinarith

lemma samplePoint_forall₂ (vars : List OptiDesignVar)
    (hvars : ∀ dv ∈ vars, dv.space.1 ≤ dv.space.2) (s : Nat) :
    List.Forall₂ (fun dv v => dv.space.1 ≤ v ∧ v ≤ dv.space.2) vars
      (samplePoint vars s).1 := by
  induction vars generalizing s with
  | nil => exact List.Forall₂.nil
  | cons dv rest ih =>
      simp only [samplePoint]
      exact List.Forall₂.cons
        (npUniform_mem dv.space.1 dv.space.2 (hvars dv (List.mem_cons_self dv rest)) s)
        (ih (fun d hd => hvars d (List.mem_cons_of_mem dv hd)) (lcgNext s))

lemma sampleBatch_forall₂ (vars : List OptiDesignVar)
    (hvars : ∀ dv ∈ vars, dv.space.1 ≤ dv.space.2) (n s : Nat) :
    ∀ p ∈ (sampleBatch vars n s).1,
      List.Forall₂ (fun dv v => dv.space.1 ≤ v ∧ v ≤ dv.space.2) vars p := by
  induction n generalizing s with
  | zero => intro p hp; simp [sampleBatch] at hp
  | succ m ih =>
      intro p hp
      simp only [sampleBatch, List.mem_cons] at hp
      rcases hp with hp | hp
      · subst hp; exact samplePoint_forall₂ vars hvars s
      · exact ih (samplePoint vars s).2 p hp

lemma forall₂_exists_left {α β : Type} {R : α → β → Prop} {l₁ : List α}
    {l₂ : List β} (hl : List.Forall₂ R l₁ l₂) {b : β} (hb : b ∈ l₂) :
    ∃ a ∈ l₁, R a b := by
  induction hl with
  | nil => simp at hb
  | cons hr _ ih =>
      rcases List.mem_cons.1 hb with hb | hb
      · subst hb; exact ⟨_, List.mem_cons_self _ _, hr⟩
      · obtain ⟨a, ha, hab⟩ := ih hb
        exact ⟨a, List.mem_cons_of_mem _ ha, hab⟩

lemma my_vars_space : ∀ dv ∈ my_vars, dv.space = ((0 : ℚ), (1 : ℚ)) := by
  intro dv hdv
  simp only [my_vars, List.mem_map] at hdv
  obtain ⟨i, _, rfl⟩ := hdv
  rfl

/-! ## Result aggregation: Pareto dominance, non-dominated filtering, and
deduplication.  The solver code is not among the analysed sources, so the
aggregator is modelled from the specification (§4.8). -/

/-- An objective vector: one rational per objective, to minimize. -/
abbrev ObjVec (nobj : Nat) := Fin nobj → ℚ

/-- Pareto dominance (minimization): `a` dominates `b` iff `a` is at most
`b` on every objective and strictly below on at least one. -/
def dominates {nobj : Nat} (a b : ObjVec nobj) : Prop :=
  (∀ i, a i ≤ b i) ∧ ∃ i, a i < b i

instance {nobj : Nat} (a b : ObjVec nobj) : Decidable (dominates a b) :=
  inferInstanceAs (Decidable ((∀ i, a i ≤ b i) ∧ ∃ i, a i < b i))

/-- A member of the candidate front: its design point, objective vector and
whether it comes from a true evaluation (as opposed to a surrogate
prediction). -/
structure FrontMember (nobj : Nat) where
  point : List ℚ
  objs : ObjVec nobj
  true_eval : Bool
deriving DecidableEq

/-- Modelled from the spec: the non-dominated subset of a candidate list —
members not dominated by any member of the list. -/
def paretoND {nobj : Nat} (l : List (FrontMember nobj)) : List (FrontMember nobj) :=
  l.filter fun a => ! l.any fun b => decide (dominates b.objs a.objs)

/-- The record kept among a group of members sharing one objective vector:
a true-evaluated one when it exists, otherwise the group head. -/
def keepOf {nobj : Nat} (a : FrontMember nobj) (same : List (FrontMember nobj)) :
    FrontMember nobj :=
  match same.find? (fun b => b.true_eval) with
  | some t => t
  | none => a

/-- Fuel-indexed deduplication, structurally recursive (the fuel bounds the
number of distinct objective vectors; `dedupObj` supplies the list length,
which always suffices since filtering only shrinks the tail). -/
def dedupObjAux {nobj : Nat} : Nat → List (FrontMember nobj) → List (FrontMember nobj)
  | _, [] => []
  | 0, _ :: _ => []
  | fuel + 1, a :: rest =>
      keepOf a (a :: rest.filter fun b => decide (b.objs = a.objs)) ::
        dedupObjAux fuel (rest.filter fun b => ! decide (b.objs = a.objs))

/-- Modelled from the spec: deduplication of ties on identical objective
vectors, keeping the true-evaluated record when one exists. -/
def dedupObj {nobj : Nat} (l : List (FrontMember nobj)) : List (FrontMember nobj) :=
  dedupObjAux l.length l

/-- Modelled from the spec: the Result Aggregator merges true evaluation
records with the surrogate-predicted population, computes global Pareto
dominance across the combined set, and deduplicates ties. -/
def resultFront {nobj : Nat} (true_records predicted : List (FrontMember nobj)) :
    List (FrontMember nobj) :=
  dedupObj (paretoND (true_records ++ predicted))

lemma mem_paretoND {nobj : Nat} {l : List (FrontMember nobj)} {x : FrontMember nobj} :
    x ∈ paretoND l ↔ x ∈ l ∧ ∀ b ∈ l, ¬ dominates b.objs x.objs := by
  simp [paretoND, List.mem_filter]

lemma keepOf_mem {nobj : Nat} (a : FrontMember nobj) (same : List (FrontMember nobj))
    (ha : a ∈ same) : keepOf a same ∈ same := by
  unfold keepOf
  cases hfind : same.find? (fun b => b.true_eval) with
  | none => exact ha
  | some t => exact List.mem_of_find?_eq_some hfind

lemma keepOf_true {nobj : Nat} (a : FrontMember nobj) (same : List (FrontMember nobj))
    (hex : ∃ b ∈ same, b.true_eval = true) : (keepOf a same).true_eval = true := by
  unfold keepOf
  cases hfind : same.find? (fun b => b.true_eval) with
  | none =>
      obtain ⟨b, hb, hbt⟩ := hex
      have := List.find?_eq_none.1 hfind b hb
      simp [hbt] at this
  | some t => exact List.find?_some hfind

lemma dedupObjAux_subset {nobj : Nat} :
    ∀ (fuel : Nat) (l : List (FrontMember nobj)), ∀ x ∈ dedupObjAux fuel l, x ∈ l := by
  intro fuel
  induction fuel with
  | zero =>
      intro l x hx
      cases l with
      | nil => simp [dedupObjAux] at hx
      | cons a rest => simp [dedupObjAux] at hx
  | succ fuel ih =>
      intro l x hx
      cases l with
      | nil => simp [dedupObjAux] at hx
      | cons a rest =>
          simp only [dedupObjAux] at hx
          rcases List.mem_cons.1 hx with hx | hx
          · subst hx
            have hk := keepOf_mem a (a :: rest.filter fun b => decide (b.objs = a.objs))
              (List.mem_cons_self _ _)
            rcases List.mem_cons.1 hk with hk | hk
            · rw [hk]; exact List.mem_cons_self _ _
            · exact List.mem_cons_of_mem _ (List.mem_filter.1 hk).1
          · exact List.mem_cons_of_mem _ (List.mem_filter.1 (ih _ x hx)).1

lemma dedupObj_subset {nobj : Nat} (l : List (FrontMember nobj)) :
    ∀ x ∈ dedupObj l, x ∈ l :=
  dedupObjAux_subset l.length l

lemma keepOf_objs {nobj : Nat} (a : FrontMember nobj) (l : List (FrontMember nobj)) :
    (keepOf a (a :: List.filter (fun b => decide (b.objs = a.objs)) l)).objs = a.objs := by
  have hk := keepOf_mem a (a :: l.filter fun b => decide (b.objs = a.objs))
    (List.mem_cons_self _ _)
  rcases List.mem_cons.1 hk with hk | hk
  · rw [hk]
  · have := (List.mem_filter.1 hk).2
    simpa using this

lemma dedupObjAux_pairwise {nobj : Nat} :
    ∀ (fuel : Nat) (l : List (FrontMember nobj)),
      (dedupObjAux fuel l).Pairwise (fun x y => x.objs ≠ y.objs) := by
  intro fuel
  induction fuel with
  | zero =>
      intro l
      cases l with
      | nil => simp [dedupObjAux]
      | cons a rest => simp [dedupObjAux]
  | succ fuel ih =>
      intro l
      cases l with
      | nil => simp [dedupObjAux]
      | cons a rest =>
          simp only [dedupObjAux]
          refine List.Pairwise.cons ?_ (ih _)
          intro y hy
          have hy' := dedupObjAux_subset _ _ y hy
          have hne : ¬ (y.objs = a.objs) := by
            simpa using (List.mem_filter.1 hy').2
          rw [keepOf_objs]
          exact fun hcontra => hne hcontra.symm

lemma dedupObj_pairwise {nobj : Nat} (l : List (FrontMember nobj)) :
    (dedupObj l).Pairwise (fun x y => x.objs ≠ y.objs) :=
  dedupObjAux_pairwise l.length l

lemma dedupObjAux_true {nobj : Nat} :
    ∀ (fuel : Nat) (l : List (FrontMember nobj)) (o : ObjVec nobj),
      (∃ r ∈ l, r.objs = o ∧ r.true_eval = true) →
      ∀ m ∈ dedupObjAux fuel l, m.objs = o → m.true_eval = true := by
  intro fuel
  induction fuel with
  | zero =>
      intro l o _ m hm
      cases l with
      | nil => simp [dedupObjAux] at hm
      | cons a rest => simp [dedupObjAux] at hm
  | succ fuel ih =>
      intro l o hex m hm hmo
      cases l with
      | nil => simp [dedupObjAux] at hm
      | cons a rest =>
          obtain ⟨r, hr, hro, hrt⟩ := hex
          simp only [dedupObjAux] at hm
          rcases List.mem_cons.1 hm with hm | hm
          · subst hm
            apply keepOf_true
            refine ⟨r, ?_, hrt⟩
            rcases List.mem_cons.1 hr with hr | hr
            · subst hr; exact List.mem_cons_self _ _
            · refine List.mem_cons_of_mem _ (List.mem_filter.2 ⟨hr, ?_⟩)
              have hoa : o = a.objs := by rw [← hmo, keepOf_objs]
              simp [hro, hoa]
          · have hmna : ¬ (m.objs = a.objs) := by
              simpa using (List.mem_filter.1 (dedupObjAux_subset _ _ m hm)).2
            have hr' : r ∈ rest.filter fun b => ! decide (b.objs = a.objs) := by
              rcases List.mem_cons.1 hr with hr | hr
              · exact absurd (by rw [hmo, ← hro, hr]) hmna
              · refine List.mem_filter.2 ⟨hr, ?_⟩
                simp only [Bool.not_eq_eq_eq_not, Bool.not_true, decide_eq_false_iff_not]
                intro hcontra
                exact hmna (by rw [hmo, ← hro, hcontra])
            exact ih _ o ⟨r, hr', hro, hrt⟩ m hm hmo

lemma dedupObj_true {nobj : Nat} (l : List (FrontMember nobj)) :
    ∀ o : ObjVec nobj, (∃ r ∈ l, r.objs = o ∧ r.true_eval = true) →
      ∀ m ∈ dedupObj l, m.objs = o → m.true_eval = true :=
  dedupObjAux_true l.length l

lemma exists_min_measure {α : Type} (f : α → ℚ) :
    ∀ l : List α, l ≠ [] → ∃ m ∈ l, ∀ b ∈ l, f m ≤ f b := by
  intro l
  induction l with
  | nil => intro hl; exact absurd rfl hl
  | cons a t ih =>
      intro _
      rcases Classical.em (t = []) with ht | ht
      · subst ht
        refine ⟨a, List.mem_cons_self _ _, ?_⟩
        intro b hb
        rcases List.mem_singleton.1 hb with rfl
        exact le_rfl
      · obtain ⟨m, hm, hmin⟩ := ih ht
        rcases le_total (f a) (f m) with hle | hle
        · refine ⟨a, List.mem_cons_self _ _, ?_⟩
          intro b hb
          rcases List.mem_cons.1 hb with hb | hb
          · subst hb; exact le_rfl
          · exact hle.trans (hmin b hb)
        · refine ⟨m, List.mem_cons_of_mem _ hm, ?_⟩
          intro b hb
          rcases List.mem_cons.1 hb with hb | hb
          · subst hb; exact hle
          · exact hmin b hb

lemma dominates_sum_lt {nobj : Nat} (a b : ObjVec nobj) (hd : dominates a b) :
    ∑ i, a i < ∑ i, b i := by
  obtain ⟨i, hi⟩ := hd.2
  exact Finset.sum_lt_sum (fun j _ => hd.1 j) ⟨i, Finset.mem_univ i, hi⟩

lemma paretoND_ne_nil {nobj : Nat} (l : List (FrontMember nobj)) (hl : l ≠ []) :
    paretoND l ≠ [] := by
  obtain ⟨m, hm, hmin⟩ := exists_min_measure (fun x => ∑ i, x.objs i) l hl
  have hmem : m ∈ paretoND l := by
    refine mem_paretoND.2 ⟨hm, ?_⟩
    intro b hb hdom
    exact absurd (hmin b hb) (not_le.2 (dominates_sum_lt _ _ hdom))
  intro hnil
  rw [hnil] at hmem
  simp at hmem

lemma dedupObj_ne_nil {nobj : Nat} (l : List (FrontMember nobj)) (hl : l ≠ []) :
    dedupObj l ≠ [] := by
  cases l with
  | nil => exact absurd rfl hl
  | cons a rest => simp [dedupObj, dedupObjAux]

lemma resultFront_ne_nil {nobj : Nat} (tr pr : List (FrontMember nobj))
    (hne : tr ++ pr ≠ []) : resultFront tr pr ≠ [] :=
  dedupObj_ne_nil _ (paretoND_ne_nil _ hne)

/-- C8: binding functions are frame-confined: the setter produced by
`gen_setter i` writes `v` into `simu.input.Ir.value[i]` and leaves every
other component of the simulation input (`Ir.value[j]` for `j ≠ i`, `Is`,
`angle_rotor_initial`) and all other simulation state (`name`, `machine`,
`elec`, `mag`, `force`, `struct`) unchanged. -/
theorem gen_setter_frame (i j : Fin 30) (hij : j ≠ i) (v : ℝ) (simu : Simu1) :
    (gen_setter i simu v).input.Ir.value i = v ∧
    (gen_setter i simu v).input.Ir.value j = simu.input.Ir.value j ∧
    (gen_setter i simu v).input.Is = simu.input.Is ∧
    (gen_setter i simu v).input.angle_rotor_initial = simu.input.angle_rotor_initial ∧
    (gen_setter i simu v).name = simu.name ∧
    (gen_setter i simu v).machine = simu.machine ∧
    (gen_setter i simu v).elec = simu.elec ∧
    (gen_setter i simu v).mag = simu.mag ∧
    (gen_setter i simu v).force = simu.force ∧
    (gen_setter i simu v).struc = simu.struc := by
  refine ⟨?_, ?_, rfl, rfl, rfl, rfl, rfl, rfl, rfl, rfl⟩
  · simp [gen_setter]
  · simp [gen_setter, Function.update_apply, hij]

/-- Witness for C8 at concrete inputs: setting slot 0 of the reference
simulation leaves slot 1 unchanged. -/
theorem gen_setter_frame_witness :
    (gen_setter 0 simu_ref 1).input.Ir.value 1 = simu_ref.input.Ir.value 1 :=
  (gen_setter_frame 0 1 (by decide) 1 simu_ref).2.1

/-- C9: `evaluate_fct` is total on the declared variable space: if every
component of `Ir.value` lies in `[0, 1]` then `g(x) ≥ 1 > 0` and
`0 ≤ f1(x)/g(x) ≤ 1`, so the division and the square root inside
`evaluate_fct` are well-defined, and `evaluate_fct` writes `f1(x)` to
`Tem_av` and `g(x)*h(f1(x),g(x))` to `Tem_rip_norm`. -/
theorem evaluate_fct_total (o : Output)
    (hx : ∀ i, 0 ≤ o.simu.input.Ir.value i ∧ o.simu.input.Ir.value i ≤ 1) :
    1 ≤ g o.simu.input.Ir.value ∧
    0 < g o.simu.input.Ir.value ∧
    0 ≤ f1 o.simu.input.Ir.value / g o.simu.input.Ir.value ∧
    f1 o.simu.input.Ir.value / g o.simu.input.Ir.value ≤ 1 ∧
    (evaluate_fct o).mag.Tem_av = f1 o.simu.input.Ir.value ∧
    (evaluate_fct o).mag.Tem_rip_norm =
      g o.simu.input.Ir.value *
        h (f1 o.simu.input.Ir.value) (g o.simu.input.Ir.value) := by
  set x := o.simu.input.Ir.value with hxdef
  have hsum : 0 ≤ ∑ i in Finset.univ.erase (0 : Fin 30), x i :=
    Finset.sum_nonneg fun i _ => (hx i).1
  have hg : 1 ≤ g x := by
    unfold g
    nlinarith
  have hg0 : 0 < g x := lt_of_lt_of_le one_pos hg
  have hf0 : 0 ≤ f1 x := (hx 0).1
  have hf1 : f1 x ≤ 1 := (hx 0).2
  exact ⟨hg, hg0, div_nonneg hf0 hg0.le, (div_le_one hg0).2 (hf1.trans hg),
    rfl, rfl⟩

/-- Witness for C9: the all-zeros reference output satisfies the bounds, and
`g` there is at least 1. -/
theorem evaluate_fct_total_witness :
    1 ≤ g (Output.mk simu_ref (OutMag.mk 0 0 0)).simu.input.Ir.value :=
  (evaluate_fct_total (Output.mk simu_ref (OutMag.mk 0 0 0))
    (fun _ => ⟨le_rfl, zero_le_one⟩)).1

/-- C10: `evaluate_fct` writes only `output.mag.Tem_av` and
`output.mag.Tem_rip_norm`; it never writes `output.mag.Tem_rip_pp` (nor the
simulation), yet `Tem_rip_pp` is exactly the field read by constraint
`const1`, so the feasibility of every evaluated point is decided by a field
the evaluation function does not set. -/
theorem evaluate_fct_const1_mismatch (o : Output) :
    (evaluate_fct o).mag.Tem_rip_pp = o.mag.Tem_rip_pp ∧
    (evaluate_fct o).simu = o.simu ∧
    const1_get_variable (evaluate_fct o) = |o.mag.Tem_rip_pp| ∧
    (const1_satisfied (evaluate_fct o) ↔ |o.mag.Tem_rip_pp| ≤ 700) :=
  ⟨rfl, rfl, rfl, Iff.rfl⟩

/-- C4: every design point produced by the variable space's sampling (the
initial batch and the per-iteration candidate pools, both drawn through
`sampleBatch`) has each component inside that variable's declared domain;
in particular, for the notebook's 30 interval variables with space
`[0, 1]`, every generated value `v` satisfies `0 ≤ v ≤ 1`. -/
theorem sampling_in_domain :
    (∀ vars : List OptiDesignVar, (∀ dv ∈ vars, dv.space.1 ≤ dv.space.2) →
      ∀ n s, ∀ p ∈ (sampleBatch vars n s).1,
        List.Forall₂ (fun dv v => dv.space.1 ≤ v ∧ v ≤ dv.space.2) vars p) ∧
    (∀ n s, ∀ p ∈ (sampleBatch my_vars n s).1, ∀ v ∈ p, 0 ≤ v ∧ v ≤ 1) := by
  constructor
  · exact fun vars hvars n s => sampleBatch_forall₂ vars hvars n s
  · intro n s p hp v hv
    have hall := sampleBatch_forall₂ my_vars
      (fun dv hdv => by rw [my_vars_space dv hdv]; norm_num) n s p hp
    obtain ⟨dv, hdv, hbound⟩ := forall₂_exists_left hall hv
    rw [my_vars_space dv hdv] at hbound
    exact hbound

/-- Witness for C4: the single point drawn from seed 0 for a one-variable
space with domain `[0, 1]` has its components inside the domain. -/
theorem sampling_in_domain_witness :
    List.Forall₂ (fun (dv : OptiDesignVar) (v : ℚ) => dv.space.1 ≤ v ∧ v ≤ dv.space.2)
      [{ name := "x", symbol := "x", type_var := TypeVar.interval, space := (0, 1) }]
      ((sampleBatch
        [{ name := "x", symbol := "x", type_var := TypeVar.interval, space := (0, 1) }]
        1 0).1.headD []) :=
  sampling_in_domain.1
    [{ name := "x", symbol := "x", type_var := TypeVar.interval, space := (0, 1) }]
    (by intro dv hdv; simp only [List.mem_singleton] at hdv; subst hdv; norm_num)
    1 0 _ (by simp [sampleBatch, samplePoint])

/-- C6: the final front returned by the Result Aggregator is internally
consistent: for every pair `(a, b)` of returned members neither dominates
the other; members with identical objective vectors are deduplicated
(no two returned members share an objective vector), keeping the
true-evaluated record when one exists among the tied non-dominated
members. -/
theorem result_front_consistent {nobj : Nat}
    (tr pr : List (FrontMember nobj)) :
    (∀ a ∈ resultFront tr pr, ∀ b ∈ resultFront tr pr, ¬ dominates a.objs b.objs) ∧
    (resultFront tr pr).Pairwise (fun x y => x.objs ≠ y.objs) ∧
    (∀ o : ObjVec nobj,
      (∃ r ∈ paretoND (tr ++ pr), r.objs = o ∧ r.true_eval = true) →
      ∀ m ∈ resultFront tr pr, m.objs = o → m.true_eval = true) := by
  refine ⟨?_, dedupObj_pairwise _, fun o hex => dedupObj_true _ o hex⟩
  intro a ha b hb hdom
  have ha' := dedupObj_subset _ a ha
  have hb' := dedupObj_subset _ b hb
  have hbp := mem_paretoND.1 hb'
  exact hbp.2 a (mem_paretoND.1 ha').1 hdom

/-- Witness for C6 on a concrete two-member instance: the kept member of the
aggregated front is not self-dominating, obtained by applying the theorem at
a membership certificate checked by `decide`. -/
theorem result_front_consistent_witness :
    ¬ dominates (@FrontMember.mk 1 [] (fun _ => 0) true).objs
      (@FrontMember.mk 1 [] (fun _ => 0) true).objs :=
  (result_front_consistent [@FrontMember.mk 1 [] (fun _ => 0) true]
      [@FrontMember.mk 1 [] (fun _ => 0) false]).1
    (@FrontMember.mk 1 [] (fun _ => 0) true) (by decide)
    (@FrontMember.mk 1 [] (fun _ => 0) true) (by decide)

/-! ## The refinement loop and population search (spec §4.6–§4.8, §6)

`OptiBayesAlgSmoot.solve` is not among the analysed sources (the notebook
only invokes it), so the engine is modelled from the specification.  The
surrogate fit/predict and the acquisition scoring are abstracted as
function parameters: the claims settled against this model hold for every
choice of these functions. -/

/-- Modelled from the spec: the solver configuration (§6): Seeding batch
size, cap on Iterating passes, Population Search generation count and
population size, convergence threshold and patience, and the
reproducibility seed. -/
structure SolverConfig where
  nb_start : Nat
  nb_iter : Nat
  nb_gen : Nat
  size_pop : Nat
  conv_threshold : ℚ
  conv_patience : Nat
  random_seed : Nat
deriving DecidableEq

/-- Modelled from the spec: an Evaluation Record (§3): design point,
objective vector or `none` on evaluation failure, and the feasibility
flag. -/
structure EvalRecord (nobj : Nat) where
  point : List ℚ
  objs : Option (ObjVec nobj)
  feasible : Bool
deriving DecidableEq

/-- A record is failed iff the Evaluator produced no values. -/
def EvalRecord.failed {nobj : Nat} (r : EvalRecord nobj) : Bool := r.objs.isNone

/-- Internal engine state: the append-only Sample Archive, the number of
true-evaluator calls made, the generator state, and the count of
consecutive below-threshold iterations. -/
structure EngState (nobj : Nat) where
  archive : List (EvalRecord nobj)
  calls : Nat
  rng : Nat
  lowStreak : Nat

/-- One true evaluation: call the Evaluator on the point and append the
record (a failure is recorded, never raised). -/
def doEval {nobj : Nat} (evalf : Nat → List ℚ → Option (ObjVec nobj))
    (feas : ObjVec nobj → Bool) (st : EngState nobj) (p : List ℚ) : EngState nobj :=
  { st with
    archive := st.archive ++
      [{ point := p
         objs := evalf st.calls p
         feasible := match evalf st.calls p with
           | some o => feas o
           | none => false }]
    calls := st.calls + 1 }

/-- Modelled from the spec: the Seeding phase (§4.6): draw an initial batch
of design points and evaluate all of them through the Evaluator. -/
def seedPhase {nobj : Nat} (evalf : Nat → List ℚ → Option (ObjVec nobj))
    (feas : ObjVec nobj → Bool) (vars : List OptiDesignVar) (n : Nat)
    (st : EngState nobj) : EngState nobj :=
  ((sampleBatch vars n st.rng).1).foldl (doEval evalf feas)
    { st with rng := (sampleBatch vars n st.rng).2 }

/-- Modelled from the spec: the feasible training set (§4.3): ordered pairs
(design point, objective vector) of all feasible, non-failed records. -/
def feasible_training_set {nobj : Nat} (archive : List (EvalRecord nobj)) :
    List (List ℚ × ObjVec nobj) :=
  archive.filterMap fun r =>
    match r.objs with
    | some o => if r.feasible then some (r.point, o) else none
    | none => none

/-- Terminal condition of the Refinement Loop (§4.6). -/
inductive LoopEnd
  | Converged
  | Exhausted
deriving DecidableEq

/-- Select the best-scoring candidate of a pool (first maximum wins). -/
def pickBest (score : List ℚ → ℚ) : List (List ℚ) → List ℚ → List ℚ
  | [], best => best
  | c :: t, best => pickBest score t (if score best < score c then c else best)

/-- Modelled from the spec: the Iterating phase (§4.6): up to `fuel` passes;
each pass samples a candidate pool, scores it with the acquisition
strategy, truly evaluates the top-scoring candidate, and appends the
record; the loop ends `Converged` after enough consecutive
below-threshold best scores, or `Exhausted` when the budget runs out.
Returns the final state, the number of executed passes, and the terminal
condition. -/
def iterLoop {nobj : Nat} (evalf : Nat → List ℚ → Option (ObjVec nobj))
    (feas : ObjVec nobj → Bool) (vars : List OptiDesignVar) (size_pop : Nat)
    (score : List (EvalRecord nobj) → List ℚ → ℚ) (threshold : ℚ) (patience : Nat) :
    Nat → EngState nobj → EngState nobj × Nat × LoopEnd
  | 0, st => (st, 0, LoopEnd.Exhausted)
  | fuel + 1, st =>
      let p0 := samplePoint vars st.rng
      let cands := sampleBatch vars size_pop p0.2
      let best := pickBest (score st.archive) cands.1 p0.1
      let st2 := doEval evalf feas { st with rng := cands.2 } best
      let streak := if score st.archive best < threshold then st.lowStreak + 1 else 0
      if 0 < streak ∧ patience ≤ streak then
        ({ st2 with lowStreak := streak }, 1, LoopEnd.Converged)
      else
        let r := iterLoop evalf feas vars size_pop score threshold patience fuel
          { st2 with lowStreak := streak }
        (r.1, r.2.1 + 1, r.2.2)

/-- Individuals of the Population Search as surrogate-predicted front
members. -/
def predFront {nobj : Nat} (predict : List ℚ → ObjVec nobj) (pop : List (List ℚ)) :
    List (FrontMember nobj) :=
  pop.map fun p => { point := p, objs := predict p, true_eval := false }

/-- Modelled from the spec: one generation of the Population Search (§4.7):
merge the population with freshly sampled individuals and keep the
subset that is non-dominated under the surrogate-predicted objectives. -/
def popSearchStep {nobj : Nat} (vars : List OptiDesignVar) (size_pop : Nat)
    (predict : List ℚ → ObjVec nobj) (x : List (List ℚ) × Nat) :
    List (List ℚ) × Nat :=
  ((paretoND (predFront predict (x.1 ++ (sampleBatch vars size_pop x.2).1))).map
      (fun m => m.point),
    (sampleBatch vars size_pop x.2).2)

/-- Modelled from the spec: the Population Search (§4.7): an initial
population sampled from the variable space, evolved for `nb_gen`
generations against the surrogate's predicted means. -/
def popSearch {nobj : Nat} (vars : List OptiDesignVar) (size_pop nb_gen : Nat)
    (predict : List ℚ → ObjVec nobj) (s : Nat) : List (List ℚ) × Nat :=
  (popSearchStep vars size_pop predict)^[nb_gen]
    ((sampleBatch vars size_pop s).1, (sampleBatch vars size_pop s).2)

/-- True evaluation records of the archive as front members. -/
def trueFront {nobj : Nat} (archive : List (EvalRecord nobj)) :
    List (FrontMember nobj) :=
  archive.filterMap fun r =>
    match r.objs with
    | some o => some { point := r.point, objs := o, true_eval := true }
    | none => none

/-- Number of failed records in the archive (the diagnostics counter). -/
def countFailed {nobj : Nat} (archive : List (EvalRecord nobj)) : Nat :=
  archive.countP fun r => r.failed

/-- The run output (§6): final front, full archive, failure count,
executed Iterating passes and terminal condition. -/
structure SolveResult (nobj : Nat) where
  archive : List (EvalRecord nobj)
  ending : LoopEnd
  passes : Nat
  n_fail : Nat
  front : List (FrontMember nobj)

/-- Modelled from the spec: `OptiBayesAlgSmoot.solve` (§4.6–§4.8): Seeding,
then the Iterating passes, then — whatever the terminal condition —
the Population Search against the surrogate, and finally the Result
Aggregator's merged, deduplicated non-dominated front. -/
def solve {nobj : Nat} (cfg : SolverConfig) (vars : List OptiDesignVar)
    (evalf : Nat → List ℚ → Option (ObjVec nobj)) (feas : ObjVec nobj → Bool)
    (score : List (EvalRecord nobj) → List ℚ → ℚ)
    (predict : List ℚ → ObjVec nobj) : SolveResult nobj :=
  let st1 := seedPhase evalf feas vars cfg.nb_start
    { archive := [], calls := 0, rng := cfg.random_seed, lowStreak := 0 }
  let r := iterLoop evalf feas vars cfg.size_pop score cfg.conv_threshold
    cfg.conv_patience cfg.nb_iter st1
  { archive := r.1.archive
    ending := r.2.2
    passes := r.2.1
    n_fail := countFailed r.1.archive
    front := resultFront (trueFront r.1.archive)
      (predFront predict
        (popSearch vars cfg.size_pop cfg.nb_gen predict r.1.rng).1) }

lemma iterLoop_passes_le {nobj : Nat} (evalf : Nat → List ℚ → Option (ObjVec nobj))
    (feas : ObjVec nobj → Bool) (vars : List OptiDesignVar) (size_pop : Nat)
    (score : List (EvalRecord nobj) → List ℚ → ℚ) (threshold : ℚ) (patience : Nat) :
    ∀ (fuel : Nat) (st : EngState nobj),
      (iterLoop evalf feas vars size_pop score threshold patience fuel st).2.1 ≤ fuel := by
  intro fuel
  induction fuel with
  | zero => intro st; simp [iterLoop]
  | succ fuel ih =>
      intro st
      simp only [iterLoop]
      split
      · split
        · exact Nat.succ_le_succ (Nat.zero_le _)
        · exact Nat.succ_le_succ (ih _)
      · split
        · exact Nat.succ_le_succ (Nat.zero_le _)
        · exact Nat.succ_le_succ (ih _)

lemma iterLoop_ending {nobj : Nat} (evalf : Nat → List ℚ → Option (ObjVec nobj))
    (feas : ObjVec nobj → Bool) (vars : List OptiDesignVar) (size_pop : Nat)
    (score : List (EvalRecord nobj) → List ℚ → ℚ) (threshold : ℚ) (patience : Nat) :
    ∀ (fuel : Nat) (st : EngState nobj),
      (iterLoop evalf feas vars size_pop score threshold patience fuel st).2.2 =
        LoopEnd.Converged ∨
      (iterLoop evalf feas vars size_pop score threshold patience fuel st).2.2 =
        LoopEnd.Exhausted := by
  intro fuel
  induction fuel with
  | zero => intro st; right; rfl
  | succ fuel ih =>
      intro st
      simp only [iterLoop]
      split
      · split
        · left; rfl
        · exact ih _
      · split
        · left; rfl
        · exact ih _

lemma sampleBatch_length (vars : List OptiDesignVar) :
    ∀ (n s : Nat), (sampleBatch vars n s).1.length = n := by
  intro n
  induction n with
  | zero => intro s; simp [sampleBatch]
  | succ m ih => intro s; simp [sampleBatch, ih]

lemma popSearchStep_ne_nil {nobj : Nat} (vars : List OptiDesignVar) (size_pop : Nat)
    (predict : List ℚ → ObjVec nobj) (x : List (List ℚ) × Nat) (hx : x.1 ≠ []) :
    (popSearchStep vars size_pop predict x).1 ≠ [] := by
  have hpool : x.1 ++ (sampleBatch vars size_pop x.2).1 ≠ [] := fun hcon =>
    hx (List.append_eq_nil.1 hcon).1
  have hpf : predFront predict (x.1 ++ (sampleBatch vars size_pop x.2).1) ≠ [] := by
    simpa [predFront, List.map_eq_nil_iff] using hpool
  intro hnil
  exact paretoND_ne_nil _ hpf (List.map_eq_nil_iff.1 hnil)

lemma popSearchStep_iterate_ne_nil {nobj : Nat} (vars : List OptiDesignVar)
    (size_pop : Nat) (predict : List ℚ → ObjVec nobj) :
    ∀ (n : Nat) (x : List (List ℚ) × Nat), x.1 ≠ [] →
      ((popSearchStep vars size_pop predict)^[n] x).1 ≠ [] := by
  intro n
  induction n with
  | zero => intro x hx; simpa using hx
  | succ m ih =>
      intro x hx
      rw [Function.iterate_succ_apply]
      exact ih _ (popSearchStep_ne_nil vars size_pop predict x hx)

lemma popSearch_ne_nil {nobj : Nat} (vars : List OptiDesignVar)
    (size_pop nb_gen : Nat) (predict : List ℚ → ObjVec nobj) (s : Nat)
    (hsp : 1 ≤ size_pop) : (popSearch vars size_pop nb_gen predict s).1 ≠ [] := by
  unfold popSearch
  apply popSearchStep_iterate_ne_nil
  intro hnil
  have hlen := sampleBatch_length vars size_pop s
  rw [hnil] at hlen
  simp at hlen
  omega

/-- The run-level bookkeeping invariant: the failure counter matches the
per-call failure predicate, and each call appended exactly one record. -/
def EngInv {nobj : Nat} (predB : Nat → Bool) (st : EngState nobj) : Prop :=
  countFailed st.archive = (List.range st.calls).countP predB ∧
  st.archive.length = st.calls

lemma doEval_inv {nobj : Nat} (evalf : Nat → List ℚ → Option (ObjVec nobj))
    (feas : ObjVec nobj → Bool) (predB : Nat → Bool)
    (hev : ∀ k p, (evalf k p).isNone = predB k) (st : EngState nobj) (p : List ℚ)
    (hst : EngInv predB st) : EngInv predB (doEval evalf feas st p) := by
  obtain ⟨h1, h2⟩ := hst
  constructor
  · simp only [doEval, countFailed, List.countP_append, List.countP_cons,
      List.countP_nil, List.range_succ, EvalRecord.failed] at h1 ⊢
    rw [hev st.calls p, h1]
  · simp only [doEval, List.length_append, List.length_singleton]
    omega

lemma foldl_doEval_inv {nobj : Nat} (evalf : Nat → List ℚ → Option (ObjVec nobj))
    (feas : ObjVec nobj → Bool) (predB : Nat → Bool)
    (hev : ∀ k p, (evalf k p).isNone = predB k) :
    ∀ (pts : List (List ℚ)) (st : EngState nobj), EngInv predB st →
      EngInv predB (pts.foldl (doEval evalf feas) st) := by
  intro pts
  induction pts with
  | nil => intro st hst; simpa using hst
  | cons p t ih =>
      intro st hst
      simp only [List.foldl_cons]
      exact ih _ (doEval_inv evalf feas predB hev st p hst)

lemma seedPhase_inv {nobj : Nat} (evalf : Nat → List ℚ → Option (ObjVec nobj))
    (feas : ObjVec nobj → Bool) (predB : Nat → Bool)
    (hev : ∀ k p, (evalf k p).isNone = predB k) (vars : List OptiDesignVar)
    (n : Nat) (st : EngState nobj) (hst : EngInv predB st) :
    EngInv predB (seedPhase evalf feas vars n st) :=
  foldl_doEval_inv evalf feas predB hev _ _ hst

lemma iterLoop_inv {nobj : Nat} (evalf : Nat → List ℚ → Option (ObjVec nobj))
    (feas : ObjVec nobj → Bool) (vars : List OptiDesignVar) (size_pop : Nat)
    (score : List (EvalRecord nobj) → List ℚ → ℚ) (threshold : ℚ) (patience : Nat)
    (predB : Nat → Bool) (hev : ∀ k p, (evalf k p).isNone = predB k) :
    ∀ (fuel : Nat) (st : EngState nobj), EngInv predB st →
      EngInv predB (iterLoop evalf feas vars size_pop score threshold patience fuel st).1 := by
  intro fuel
  induction fuel with
  | zero => intro st hst; simpa [iterLoop] using hst
  | succ fuel ih =>
      intro st hst
      simp only [iterLoop]
      split
      · split
        · exact doEval_inv evalf feas predB hev _ _ hst
        · exact ih _ (doEval_inv evalf feas predB hev _ _ hst)
      · split
        · exact doEval_inv evalf feas predB hev _ _ hst
        · exact ih _ (doEval_inv evalf feas predB hev _ _ hst)

lemma feasible_training_set_not_failed {nobj : Nat} (l : List (EvalRecord nobj)) :
    ∀ x ∈ feasible_training_set l, ∃ rec ∈ l,
      rec.failed = false ∧ rec.point = x.1 ∧ rec.objs = some x.2 := by
  intro x hx
  simp only [feasible_training_set, List.mem_filterMap] at hx
  obtain ⟨r, hr, hrx⟩ := hx
  split at hrx
  next o heq =>
    split at hrx
    next hfeas =>
      have hx' := Option.some_inj.1 hrx
      subst hx'
      exact ⟨r, hr, by simp [EvalRecord.failed, heq], rfl, by rw [heq]⟩
    next hfeas => simp at hrx
  next heq => simp at hrx

lemma solve_fail_count {nobj : Nat} (cfg : SolverConfig) (vars : List OptiDesignVar)
    (evalf : Nat → List ℚ → Option (ObjVec nobj)) (feas : ObjVec nobj → Bool)
    (score : List (EvalRecord nobj) → List ℚ → ℚ) (predict : List ℚ → ObjVec nobj)
    (predB : Nat → Bool) (hev : ∀ k p, (evalf k p).isNone = predB k) :
    (solve cfg vars evalf feas score predict).n_fail =
      (List.range (solve cfg vars evalf feas score predict).archive.length).countP predB := by
  have hinv0 : EngInv predB
      ({ archive := [], calls := 0, rng := cfg.random_seed, lowStreak := 0 } : EngState nobj) := by
    constructor <;> simp [countFailed]
  have hinv := iterLoop_inv evalf feas vars cfg.size_pop score cfg.conv_threshold
    cfg.conv_patience predB hev cfg.nb_iter _
    (seedPhase_inv evalf feas predB hev vars cfg.nb_start _ hinv0)
  obtain ⟨h1, h2⟩ := hinv
  show countFailed (iterLoop evalf feas vars cfg.size_pop score cfg.conv_threshold
      cfg.conv_patience cfg.nb_iter (seedPhase evalf feas vars cfg.nb_start
        { archive := [], calls := 0, rng := cfg.random_seed, lowStreak := 0 })).1.archive =
    (List.range (iterLoop evalf feas vars cfg.size_pop score cfg.conv_threshold
      cfg.conv_patience cfg.nb_iter (seedPhase evalf feas vars cfg.nb_start
        { archive := [], calls := 0, rng := cfg.random_seed, lowStreak := 0 })).1.archive.length).countP predB
  rw [h2]
  exact h1

lemma solve_front_ne_nil {nobj : Nat} (cfg : SolverConfig) (vars : List OptiDesignVar)
    (evalf : Nat → List ℚ → Option (ObjVec nobj)) (feas : ObjVec nobj → Bool)
    (score : List (EvalRecord nobj) → List ℚ → ℚ) (predict : List ℚ → ObjVec nobj)
    (hpop : 1 ≤ cfg.size_pop) :
    (solve cfg vars evalf feas score predict).front ≠ [] := by
  refine resultFront_ne_nil _ _ ?_
  intro hcon
  exact popSearch_ne_nil vars cfg.size_pop cfg.nb_gen predict _ hpop
    (List.map_eq_nil_iff.1 ((List.append_eq_nil.1 hcon).2))

/-- C2: for every run configured with a maximum iteration count (`nb_iter`),
the Refinement Loop executes at most `nb_iter` Iterating passes and then,
whether it ends `Converged` or `Exhausted`, unconditionally proceeds to the
Population Search phase (the returned front is always the Result Aggregator
applied to the Population Search output); an exhausted iteration budget is a
normal terminal condition — `solve` is total and returns a result — not an
error. -/
theorem refinement_loop_bounded {nobj : Nat} (cfg : SolverConfig)
    (vars : List OptiDesignVar) (evalf : Nat → List ℚ → Option (ObjVec nobj))
    (feas : ObjVec nobj → Bool) (score : List (EvalRecord nobj) → List ℚ → ℚ)
    (predict : List ℚ → ObjVec nobj) :
    (solve cfg vars evalf feas score predict).passes ≤ cfg.nb_iter ∧
    ((solve cfg vars evalf feas score predict).ending = LoopEnd.Converged ∨
     (solve cfg vars evalf feas score predict).ending = LoopEnd.Exhausted) ∧
    (∃ s : Nat, (solve cfg vars evalf feas score predict).front =
      resultFront (trueFront (solve cfg vars evalf feas score predict).archive)
        (predFront predict (popSearch vars cfg.size_pop cfg.nb_gen predict s).1)) := by
  refine ⟨?_, ?_, ?_⟩
  · exact iterLoop_passes_le evalf feas vars cfg.size_pop score cfg.conv_threshold
      cfg.conv_patience cfg.nb_iter _
  · exact iterLoop_ending evalf feas vars cfg.size_pop score cfg.conv_threshold
      cfg.conv_patience cfg.nb_iter _
  · exact ⟨(iterLoop evalf feas vars cfg.size_pop score cfg.conv_threshold
      cfg.conv_patience cfg.nb_iter (seedPhase evalf feas vars cfg.nb_start
        { archive := [], calls := 0, rng := cfg.random_seed, lowStreak := 0 })).1.rng, rfl⟩

/-- The engine run against an Evaluator that fails on exactly every third
call (calls are numbered from 0, so calls 2, 5, 8, … fail) and otherwise
returns `fobj` of the point. -/
def solveEveryThird {nobj : Nat} (cfg : SolverConfig) (vars : List OptiDesignVar)
    (feas : ObjVec nobj → Bool) (score : List (EvalRecord nobj) → List ℚ → ℚ)
    (predict : List ℚ → ObjVec nobj) (fobj : List ℚ → ObjVec nobj) : SolveResult nobj :=
  solve cfg vars (fun k p => if (k + 1) % 3 = 0 then none else some (fobj p))
    feas score predict

/-- C5: an evaluation failure never aborts the run: against an Evaluator
that fails on exactly every third call, the Refinement Loop still reaches
`Converged` or `Exhausted`, the run produces a non-empty front, the
reported failure count equals the number of failed calls, and every entry
of the surrogate training set comes from a non-failed record (failures are
recorded in the archive but excluded from training). -/
theorem failure_tolerance {nobj : Nat} (cfg : SolverConfig) (vars : List OptiDesignVar)
    (feas : ObjVec nobj → Bool) (score : List (EvalRecord nobj) → List ℚ → ℚ)
    (predict : List ℚ → ObjVec nobj) (fobj : List ℚ → ObjVec nobj)
    (hpop : 1 ≤ cfg.size_pop) :
    ((solveEveryThird cfg vars feas score predict fobj).ending = LoopEnd.Converged ∨
     (solveEveryThird cfg vars feas score predict fobj).ending = LoopEnd.Exhausted) ∧
    (solveEveryThird cfg vars feas score predict fobj).front ≠ [] ∧
    (solveEveryThird cfg vars feas score predict fobj).n_fail =
      (List.range (solveEveryThird cfg vars feas score predict fobj).archive.length).countP
        (fun k => decide ((k + 1) % 3 = 0)) ∧
    (∀ x ∈ feasible_training_set (solveEveryThird cfg vars feas score predict fobj).archive,
      ∃ rec ∈ (solveEveryThird cfg vars feas score predict fobj).archive,
        rec.failed = false ∧ rec.point = x.1 ∧ rec.objs = some x.2) := by
  have hev : ∀ (k : Nat) (p : List ℚ),
      ((fun k p => if (k + 1) % 3 = 0 then none else some (fobj p)) k p).isNone =
        decide ((k + 1) % 3 = 0) := by
    intro k p
    by_cases hk : (k + 1) % 3 = 0 <;> simp [hk]
  refine ⟨?_, ?_, ?_, ?_⟩
  · exact iterLoop_ending _ feas vars cfg.size_pop score cfg.conv_threshold
      cfg.conv_patience cfg.nb_iter _
  · exact solve_front_ne_nil cfg vars _ feas score predict hpop
  · exact solve_fail_count cfg vars _ feas score predict _ hev
  · exact feasible_training_set_not_failed _

/-- Witness for C5 at a concrete configuration (one seeding point, one
iteration, population 1): the resulting front is non-empty. -/
theorem failure_tolerance_witness :
    (@solveEveryThird 1 ⟨1, 1, 1, 1, 0, 1, 0⟩ [] (fun _ => true) (fun _ _ => 0)
        (fun _ _ => 0) (fun _ _ => 0)).front ≠ [] :=
  (failure_tolerance ⟨1, 1, 1, 1, 0, 1, 0⟩ [] (fun _ => true) (fun _ _ => 0)
    (fun _ _ => 0) (fun _ _ => 0) le_rfl).2.1

/-- C3: reproducibility — the whole pipeline (initial sampling through each
variable's `get_value` rule, evaluation, surrogate-driven iteration and
population search) is an explicit function of the configuration (which
contains `random_seed`) and of the problem functions, with the random
generator state threaded deterministically from `random_seed`; hence two
runs with identical configuration and the same seed produce identical
Sample Archives and identical final fronts. -/
theorem solve_reproducible {nobj : Nat} (cfg₁ cfg₂ : SolverConfig)
    (vars₁ vars₂ : List OptiDesignVar)
    (evalf₁ evalf₂ : Nat → List ℚ → Option (ObjVec nobj))
    (feas₁ feas₂ : ObjVec nobj → Bool)
    (score₁ score₂ : List (EvalRecord nobj) → List ℚ → ℚ)
    (predict₁ predict₂ : List ℚ → ObjVec nobj)
    (hcfg : cfg₁ = cfg₂) (hvars : vars₁ = vars₂) (hevalf : evalf₁ = evalf₂)
    (hfeas : feas₁ = feas₂) (hscore : score₁ = score₂) (hpredict : predict₁ = predict₂) :
    (solve cfg₁ vars₁ evalf₁ feas₁ score₁ predict₁).archive =
      (solve cfg₂ vars₂ evalf₂ feas₂ score₂ predict₂).archive ∧
    (solve cfg₁ vars₁ evalf₁ feas₁ score₁ predict₁).front =
      (solve cfg₂ vars₂ evalf₂ feas₂ score₂ predict₂).front := by
  subst hcfg
  subst hvars
  subst hevalf
  subst hfeas
  subst hscore
  subst hpredict
  exact ⟨rfl, rfl⟩

/-- Witness for C3: two textually identical runs over the notebook's
variable space coincide on archive and front. -/
theorem solve_reproducible_witness :
    (@solve 1 ⟨2, 1, 1, 1, 0, 1, 42⟩ my_vars (fun _ _ => none) (fun _ => true)
        (fun _ _ => 0) (fun _ _ => 0)).archive =
      (@solve 1 ⟨2, 1, 1, 1, 0, 1, 42⟩ my_vars (fun _ _ => none) (fun _ => true)
        (fun _ _ => 0) (fun _ _ => 0)).archive ∧
    (@solve 1 ⟨2, 1, 1, 1, 0, 1, 42⟩ my_vars (fun _ _ => none) (fun _ => true)
        (fun _ _ => 0) (fun _ _ => 0)).front =
      (@solve 1 ⟨2, 1, 1, 1, 0, 1, 42⟩ my_vars (fun _ _ => none) (fun _ => true)
        (fun _ _ => 0) (fun _ _ => 0)).front :=
  solve_reproducible ⟨2, 1, 1, 1, 0, 1, 42⟩ ⟨2, 1, 1, 1, 0, 1, 42⟩ my_vars my_vars
    (fun _ _ => none) (fun _ _ => none) (fun _ => true) (fun _ => true)
    (fun _ _ => 0) (fun _ _ => 0) (fun _ _ => 0) (fun _ _ => 0)
    rfl rfl rfl rfl rfl rfl

/-! ## Acquisition strategy: probability of improvement (spec §4.5)

The acquisition code is not among the analysed sources; it is modelled from
the specification: the score of a candidate is the probability, under the
surrogate's predicted Gaussian distribution, that the true value improves
on the current best, and a candidate coincident (within tolerance) with an
archive point scores 0. -/

/-- Modelled from the spec: the standard normal cumulative distribution
function, the integral of the standard Gaussian density over `(-∞, x]`. -/
noncomputable def stdNormCDF (x : ℝ) : ℝ :=
  ∫ t in Set.Iic x, ProbabilityTheory.gaussianPDFReal 0 1 t

/-- Squared Euclidean distance between two design points. -/
noncomputable def distSq {n : Nat} (x y : Fin n → ℝ) : ℝ := ∑ i, (x i - y i) ^ 2

open Classical in
/-- Modelled from the spec: the Acquisition Strategy's probability of
improvement: 0 for a candidate numerically identical (within tolerance) to
an archive point, else the Gaussian probability that the true value lands
below the current best (minimization). -/
noncomputable def acquisitionScore {n : Nat} (tol : ℝ) (archivePts : List (Fin n → ℝ))
    (best mean var : ℝ) (p : Fin n → ℝ) : ℝ :=
  if ∃ q ∈ archivePts, distSq p q ≤ tol then 0
  else stdNormCDF ((best - mean) / Real.sqrt var)

lemma gaussian_setIntegral_pos {s : Set ℝ} (hvol : MeasureTheory.volume s ≠ 0) :
    0 < ∫ t in s, ProbabilityTheory.gaussianPDFReal 0 1 t := by
  have hnn : 0 ≤ᵐ[MeasureTheory.volume.restrict s] ProbabilityTheory.gaussianPDFReal 0 1 :=
    MeasureTheory.ae_of_all _ fun t => ProbabilityTheory.gaussianPDFReal_nonneg 0 1 t
  have hint : MeasureTheory.IntegrableOn (ProbabilityTheory.gaussianPDFReal 0 1) s :=
    (ProbabilityTheory.integrable_gaussianPDFReal 0 1).integrableOn
  refine (MeasureTheory.setIntegral_pos_iff_support_of_nonneg_ae hnn hint).2 ?_
  have hsupp : Function.support (ProbabilityTheory.gaussianPDFReal 0 1) = Set.univ := by
    ext t
    simp only [Function.mem_support, Set.mem_univ, iff_true]
    exact ne_of_gt (ProbabilityTheory.gaussianPDFReal_pos 0 1 t one_ne_zero)
  rw [hsupp, Set.univ_inter]
  exact lt_of_le_of_ne (zero_le _) (Ne.symm hvol)

lemma stdNormCDF_nonneg (x : ℝ) : 0 ≤ stdNormCDF x :=
  MeasureTheory.setIntegral_nonneg measurableSet_Iic
    fun t _ => ProbabilityTheory.gaussianPDFReal_nonneg 0 1 t

lemma stdNormCDF_le_one (x : ℝ) : stdNormCDF x ≤ 1 := by
  have hle : ∫ t in Set.Iic x, ProbabilityTheory.gaussianPDFReal 0 1 t ≤
      ∫ t, ProbabilityTheory.gaussianPDFReal 0 1 t :=
    MeasureTheory.setIntegral_le_integral
      (ProbabilityTheory.integrable_gaussianPDFReal 0 1)
      (MeasureTheory.ae_of_all _ fun t => ProbabilityTheory.gaussianPDFReal_nonneg 0 1 t)
  calc stdNormCDF x ≤ ∫ t, ProbabilityTheory.gaussianPDFReal 0 1 t := hle
  _ = 1 := ProbabilityTheory.integral_gaussianPDFReal_eq_one 0 one_ne_zero

lemma stdNormCDF_pos (x : ℝ) : 0 < stdNormCDF x := by
  apply gaussian_setIntegral_pos
  rw [Real.volume_Iic]
  exact ENNReal.top_ne_zero

lemma stdNormCDF_lt_one (x : ℝ) : stdNormCDF x < 1 := by
  have hsplit := MeasureTheory.integral_add_compl
    (measurableSet_Iic : MeasurableSet (Set.Iic x))
    (ProbabilityTheory.integrable_gaussianPDFReal 0 1)
  rw [ProbabilityTheory.integral_gaussianPDFReal_eq_one 0 one_ne_zero,
    Set.compl_Iic] at hsplit
  have hIoi : 0 < ∫ t in Set.Ioi x, ProbabilityTheory.gaussianPDFReal 0 1 t := by
    apply gaussian_setIntegral_pos
    rw [Real.volume_Ioi]
    exact ENNReal.top_ne_zero
  have hsum : stdNormCDF x + ∫ t in Set.Ioi x, ProbabilityTheory.gaussianPDFReal 0 1 t = 1 :=
    hsplit
  linarith

/-- C1: for every candidate point, the probability-of-improvement score lies
in [0, 1]; it is exactly 0 for a candidate numerically identical (within
tolerance) to an already-evaluated archive point; and it is strictly
between 0 and 1 for a non-coincident candidate whose predicted mean
improves on the current best with nonzero predicted variance. -/
theorem acquisition_score_range {n : Nat} (tol : ℝ) (archivePts : List (Fin n → ℝ))
    (best mean var : ℝ) (p : Fin n → ℝ) :
    (0 ≤ acquisitionScore tol archivePts best mean var p ∧
      acquisitionScore tol archivePts best mean var p ≤ 1) ∧
    ((∃ q ∈ archivePts, distSq p q ≤ tol) →
      acquisitionScore tol archivePts best mean var p = 0) ∧
    (mean < best → 0 < var → ¬ (∃ q ∈ archivePts, distSq p q ≤ tol) →
      0 < acquisitionScore tol archivePts best mean var p ∧
        acquisitionScore tol archivePts best mean var p < 1) := by
  unfold acquisitionScore
  by_cases hc : ∃ q ∈ archivePts, distSq p q ≤ tol
  · rw [if_pos hc]
    exact ⟨⟨le_rfl, zero_le_one⟩, fun _ => rfl, fun _ _ hnc => absurd hc hnc⟩
  · rw [if_neg hc]
    exact ⟨⟨stdNormCDF_nonneg _, stdNormCDF_le_one _⟩,
      fun hcon => absurd hcon hc,
      fun _ _ _ => ⟨stdNormCDF_pos _, stdNormCDF_lt_one _⟩⟩

/-- Witness for C1: a fresh candidate (empty archive) with improving mean
and unit variance gets a score strictly between 0 and 1. -/
theorem acquisition_score_range_witness :
    0 < acquisitionScore 0 ([] : List (Fin 1 → ℝ)) 1 0 1 (fun _ => 0) ∧
      acquisitionScore 0 ([] : List (Fin 1 → ℝ)) 1 0 1 (fun _ => 0) < 1 :=
  (acquisition_score_range 0 ([] : List (Fin 1 → ℝ)) 1 0 1 (fun _ => 0)).2.2
    (by norm_num) (by norm_num) (by simp)

/-! ## Surrogate model: predict with uncertainty (spec §4.4)

The surrogate (Gaussian-process style regressor) is not among the analysed
sources; it is modelled from the specification: `predict` returns a point
estimate and a nonnegative variance that grows with the distance (in the
model's metric: least squared distance to a training input) from the
training data, and interpolates the training outputs at the training
inputs. -/

/-- Modelled from the spec: the model's distance metric of a query point to
the training inputs — the least squared distance to a training input
(training sets are nonempty: `m + 1` inputs). -/
noncomputable def minDistSq {n m : Nat} (X : Fin (m + 1) → Fin n → ℝ)
    (x : Fin n → ℝ) : ℝ :=
  Finset.univ.inf' Finset.univ_nonempty (fun j => distSq x (X j))

/-- Modelled from the spec: the predicted variance, zero on the training
inputs and increasing in the distance to them: `σ² (1 - exp (-θ d))` at
squared distance `d`. -/
noncomputable def predictVariance (θ σ2 : ℝ) {n m : Nat}
    (X : Fin (m + 1) → Fin n → ℝ) (x : Fin n → ℝ) : ℝ :=
  σ2 * (1 - Real.exp (-θ * minDistSq X x))

open Classical in
/-- Modelled from the spec: the predicted mean, a Gaussian-kernel weighted
average of the training outputs, which returns the recorded output at a
training input. -/
noncomputable def predictMean (θ : ℝ) {n m : Nat} (X : Fin (m + 1) → Fin n → ℝ)
    (Y : Fin (m + 1) → ℝ) (x : Fin n → ℝ) : ℝ :=
  if hx : ∃ j, x = X j then Y hx.choose
  else (∑ j, Real.exp (-θ * distSq x (X j)) * Y j) /
    (∑ j, Real.exp (-θ * distSq x (X j)))

lemma distSq_nonneg {n : Nat} (x y : Fin n → ℝ) : 0 ≤ distSq x y :=
  Finset.sum_nonneg fun _ _ => sq_nonneg _

lemma distSq_self {n : Nat} (x : Fin n → ℝ) : distSq x x = 0 := by
  simp [distSq]

lemma minDistSq_nonneg {n m : Nat} (X : Fin (m + 1) → Fin n → ℝ) (x : Fin n → ℝ) :
    0 ≤ minDistSq X x :=
  Finset.le_inf' _ _ fun j _ => distSq_nonneg x (X j)

lemma minDistSq_self {n m : Nat} (X : Fin (m + 1) → Fin n → ℝ) (j : Fin (m + 1)) :
    minDistSq X (X j) = 0 :=
  le_antisymm
    (by
      have hle := Finset.inf'_le (fun k => distSq (X j) (X k)) (Finset.mem_univ j)
      rw [distSq_self] at hle
      exact hle)
    (minDistSq_nonneg X (X j))

/-- C7: for every fitted surrogate (kernel width `θ > 0`, process variance
`σ² > 0`, pairwise distinct training inputs `X` with recorded outputs `Y`)
and every query point: `predict`'s variance is ≥ 0; the variance is 0 at
every training input and strictly increases as the query point moves away
from the training inputs in the model's distance metric; and at a training
input the predicted mean equals the recorded training objective value
(within tolerance 0). -/
theorem surrogate_predict_spec {n m : Nat} (θ σ2 : ℝ)
    (X : Fin (m + 1) → Fin n → ℝ) (Y : Fin (m + 1) → ℝ)
    (hθ : 0 < θ) (hσ : 0 < σ2) (hinj : Function.Injective X) :
    (∀ x, 0 ≤ predictVariance θ σ2 X x) ∧
    (∀ j, predictVariance θ σ2 X (X j) = 0) ∧
    (∀ x₁ x₂, minDistSq X x₁ < minDistSq X x₂ →
      predictVariance θ σ2 X x₁ < predictVariance θ σ2 X x₂) ∧
    (∀ j, predictMean θ X Y (X j) = Y j) := by
  refine ⟨?_, ?_, ?_, ?_⟩
  · intro x
    have hd := minDistSq_nonneg X x
    have hexp : Real.exp (-θ * minDistSq X x) ≤ 1 := by
      rw [Real.exp_le_one_iff]
      nlinarith
    unfold predictVariance
    nlinarith
  · intro j
    unfold predictVariance
    rw [minDistSq_self]
    simp
  · intro x₁ x₂ hlt
    have hexp : Real.exp (-θ * minDistSq X x₂) < Real.exp (-θ * minDistSq X x₁) := by
      rw [Real.exp_lt_exp]
      nlinarith
    unfold predictVariance
    nlinarith
  · intro j
    have hx : ∃ k, X j = X k := ⟨j, rfl⟩
    rw [predictMean, dif_pos hx]
    have hj : j = hx.choose := hinj hx.choose_spec
    rw [← hj]

/-- Witness for C7 on a one-point training set in one dimension: the
predicted mean at the training input is the recorded output. -/
theorem surrogate_predict_spec_witness :
    @predictMean 1 1 0 (fun _ _ => (0 : ℝ)) (fun _ => (5 : ℝ)) (fun _ => (0 : ℝ)) = 5 :=
  (@surrogate_predict_spec 1 0 1 1 (fun _ _ => 0) (fun _ => 5) (by norm_num)
    (by norm_num) (fun a b _ => by fin_cases a; fin_cases b; rfl)).2.2.2 0
